import Mathlib

/-!
Shallow embedding of the pop-os/debarchive crate (src/archive.rs).

The Rust source reads a Debian `.deb` archive: an `ar` container whose
members include `control.tar.{gz,xz,zst}` and `data.tar.{gz,xz,zst}`.
We model:

* the outer container as the list of scan results (`DebFile`) produced by
  `ar::Archive::next_entry`, one per `ar` member, where a member that
  fails to parse is an `error` element;
* a member's decompressed content as its sequence of tar-entry read
  results (`tarContent`), mirroring `tar::Archive::entries`;
* `io::Error` as a kind together with its displayed message;
* `BTreeMap<String, String>` as a list of pairs kept strictly sorted by
  key (`btInsert` mirrors `BTreeMap::insert`; last write wins).

External collaborators (the ar and tar readers and the three
decompression codecs) are modelled only through the behaviour the source
code relies on.  In particular, in `Archive::open_archive` the zstd and
gzip decoder constructors are fallible (the source applies `?` to both),
while `XzDecoder::new` returns the decoder directly (no `?` in the
source, and the xz2 crate's constructor is not fallible), so xz decoder
construction cannot fail and bad xz data surfaces only on reads.
-/

inductive Codec
  | xz
  | gz
  | zstd
  deriving DecidableEq, Repr

inductive IoErrorKind
  | other
  | invalidData
  | notFound
  deriving DecidableEq, Repr

/-- `std::io::Error`, reduced to its kind and its displayed message
(for errors built with `io::Error::new(kind, msg)` the display is the
message). -/
structure IoError where
  kind : IoErrorKind
  msg : String
  deriving DecidableEq, Repr

/-- One entry of an inner tar stream: its stored path, whether its
entry type is a directory, and its content read line by line (the
control-file parser is the only consumer of the content). -/
structure TarEntry where
  path : String
  isDir : Bool
  lines : List (Except IoError String)

/-- One member of the outer `ar` container: its identifier, whether its
compressed bytes begin with a valid zstd (resp. gzip) frame header, and
its decompressed content parsed as a tar stream. -/
structure ArMember where
  identifier : String
  zstdHeaderOk : Bool
  gzHeaderOk : Bool
  tarContent : List (Except IoError TarEntry)

/-- The outer container as seen by `ar::Archive::next_entry`: a list of
per-member read results. -/
abbrev DebFile := List (Except Unit ArMember)

/-- The `Archive` struct: the source path and one `(ordinal, codec)`
pair each for the data and control members.  In the source the ordinal
is a `u8`. -/
structure Archive where
  path : String
  data : Nat × Codec
  control : Nat × Codec

/-- Rust `char::is_whitespace` (the Unicode `White_Space` property), as
used by `str::trim`. -/
def isUnicodeWs (c : Char) : Bool :=
  (0x09 ≤ c.toNat && c.toNat ≤ 0x0D) || c.toNat = 0x20 || c.toNat = 0x85 ||
  c.toNat = 0xA0 || c.toNat = 0x1680 ||
  (0x2000 ≤ c.toNat && c.toNat ≤ 0x200A) ||
  c.toNat = 0x2028 || c.toNat = 0x2029 || c.toNat = 0x202F ||
  c.toNat = 0x205F || c.toNat = 0x3000

/-- Rust `str::trim`: strip leading and trailing whitespace. -/
def rustTrim (s : String) : String :=
  String.mk (((s.data.dropWhile isUnicodeWs).reverse.dropWhile isUnicodeWs).reverse)

/-- `line.find(':')` followed by `split_at`: the text before the first
colon and the text after it, with the colon itself dropped
(`value[1..]` in the source); `none` when the line has no colon. -/
def splitFirstColon : List Char → Option (List Char × List Char)
  | [] => none
  | c :: rest =>
    if c = ':' then some ([], rest)
    else
      match splitFirstColon rest with
      | none => none
      | some (k, v) => some (c :: k, v)

def splitKV (line : String) : Option (String × String) :=
  match splitFirstColon line.data with
  | none => none
  | some (k, v) => some (String.mk k, String.mk v)

/-- Rust `next_line.starts_with(' ')`. -/
def startsWithSpace (s : String) : Bool :=
  match s.data with
  | c :: _ => c = ' '
  | [] => false

abbrev BTMap := List (String × String)

/-- Lexicographic strict order on character lists, by code point. -/
def charsLtb : List Char → List Char → Bool
  | [], [] => false
  | [], _ :: _ => true
  | _ :: _, [] => false
  | a :: as, b :: bs =>
    if a.toNat < b.toNat then true
    else if b.toNat < a.toNat then false
    else charsLtb as bs

/-- Rust's `Ord for String` (lexicographic byte order; UTF-8 byte
order coincides with code point order), the order of the source's
`BTreeMap<String, String>`. -/
def strLtb (a b : String) : Bool :=
  charsLtb a.data b.data

/-- `BTreeMap<String, String>::insert`: the map is kept strictly sorted
by key in the order `strLtb`.  Inserting an existing key overwrites its
value. -/
def btInsert (k v : String) : BTMap → BTMap
  | [] => [(k, v)]
  | (k₁, v₁) :: rest =>
    if strLtb k k₁ then (k, v) :: (k₁, v₁) :: rest
    else if k = k₁ then (k, v) :: rest
    else (k₁, v₁) :: btInsert k v rest

/-- The continuation loop inside `Archive::inner_control_map`: starting
from the current `Description` value, peek at the following lines;
while the next line reads `Ok` and starts with a space, append it to
the value with a newline separator and consume it.  Stop, without
consuming, at the first non-space line, at a read error, or at end of
stream.  Returns the final value and the unconsumed remainder of the
line stream. -/
def consumeCont (value : String) : List (Except IoError String) → String × List (Except IoError String)
  | [] => (value, [])
  | .error e :: rest => (value, .error e :: rest)
  | .ok l :: rest =>
    if startsWithSpace l then consumeCont (value ++ "\n" ++ l) rest
    else (value, .ok l :: rest)

/-- The `while let Some(line) = lines.next()` loop of
`Archive::inner_control_map`, one fuel unit per outer iteration (the
wrapper `parseControlLines` supplies enough fuel for the whole stream,
so the fuel-exhausted branch is never reached; see
`parseLinesFuel_fuel_irrel`).  `ins` is the map-insert operation
(`btInsert` for the source's `BTreeMap`).  A line read error aborts
with that error (`line?` in the source).  A line without a colon is
ignored.  Otherwise the line splits at its first colon into a key and
a trimmed value; if the key is `Description` and no `Description` was
seen before in this tar entry, the continuation loop `consumeCont`
runs before the insert and the flag is cleared. -/
def parseLinesFuel (ins : String → String → BTMap → BTMap) :
    Nat → Bool → BTMap → List (Except IoError String) → Except IoError BTMap
  | 0, _, acc, _ => .ok acc
  | _ + 1, _, acc, [] => .ok acc
  | _ + 1, _, _, .error e :: _ => .error e
  | n + 1, descUnset, acc, .ok line :: rest =>
    match splitKV line with
    | none => parseLinesFuel ins n descUnset acc rest
    | some (key, v₀) =>
      if descUnset && key == "Description" then
        let p := consumeCont (rustTrim v₀) rest
        parseLinesFuel ins n false (ins key p.1 acc) p.2
      else
        parseLinesFuel ins n descUnset (ins key (rustTrim v₀) acc) rest

def parseControlLines (ins : String → String → BTMap → BTMap)
    (descUnset : Bool) (acc : BTMap) (lines : List (Except IoError String)) :
    Except IoError BTMap :=
  parseLinesFuel ins (lines.length + 1) descUnset acc lines

/-- Split a character list at every occurrence of `sep` (used to parse
path components). -/
def splitOnChar (sep : Char) : List Char → List (List Char)
  | [] => [[]]
  | c :: rest =>
    let r := splitOnChar sep rest
    if c = sep then [] :: r
    else
      match r with
      | h :: t => (c :: h) :: t
      | [] => [[c]]

/-- The component list of a `std::path::Path`: repeated separators and
non-leading `.` components are normalized away (so a trailing slash is
ignored), a leading `/` is a root component and a leading `.` is kept
as a current-directory component. -/
def pathComponents (s : String) : List String :=
  match s.data with
  | [] => []
  | c :: _ =>
    let parts := (splitOnChar '/' s.data).map String.mk
    let norm := parts.filter (fun p => !(p == "") && !(p == "."))
    if c = '/' then "/" :: norm
    else if parts.head? = some "." then "." :: norm
    else norm

/-- Rust `Path` equality (`PartialEq for Path` compares the parsed
components), as used by
`path == Path::new("./control") || path == Path::new("control")`. -/
def pathEq (a b : String) : Bool :=
  pathComponents a == pathComponents b

/-- The `for entry in tar::Archive::new(reader).entries()?` loop of
`Archive::inner_control_map`: an entry read error aborts; an entry
whose path equals `./control` or `control` (Rust `Path` equality) has
its lines parsed into the accumulated map, with the
`description_unset` flag fresh for each such entry; every other entry
is skipped.  Directory entries are not skipped here: the source's map
loop has no `is_dir` check. -/
def controlMapGo (ins : String → String → BTMap → BTMap) :
    List (Except IoError TarEntry) → BTMap → Except IoError BTMap
  | [], acc => .ok acc
  | .error e :: _, _ => .error e
  | .ok ent :: rest, acc =>
    if pathEq ent.path "./control" || pathEq ent.path "control" then
      match parseControlLines ins true acc ent.lines with
      | .error e => .error e
      | .ok acc₁ => controlMapGo ins rest acc₁
    else controlMapGo ins rest acc

inductive Slot
  | dataSlot
  | controlSlot
  deriving DecidableEq, Repr

/-- The `match entry.header().identifier()` arms of `Archive::new`:
exactly six identifiers are recognized, each mapped to its slot and
codec. -/
def matchMember (s : String) : Option (Slot × Codec) :=
  if s = "data.tar.xz" then some (.dataSlot, .xz)
  else if s = "data.tar.gz" then some (.dataSlot, .gz)
  else if s = "data.tar.zst" then some (.dataSlot, .zstd)
  else if s = "control.tar.xz" then some (.controlSlot, .xz)
  else if s = "control.tar.gz" then some (.controlSlot, .gz)
  else if s = "control.tar.zst" then some (.controlSlot, .zstd)
  else none

/-- The scanning loop of `Archive::new`.  `entry_id` is a Rust `u8`
(the struct stores `(u8, Codec)` pairs), so the increment wraps modulo
256 (release-profile wrapping semantics).  Entries that fail to parse
are skipped but still counted.  A recognized identifier records
`(entry_id, codec)` into its slot; the loop breaks as soon as both
slots are filled, and otherwise the counter is bumped and the scan
continues. -/
def archiveScan : Nat → Option (Nat × Codec) → Option (Nat × Codec) → DebFile →
    Option (Nat × Codec) × Option (Nat × Codec)
  | _, d, c, [] => (d, c)
  | id, d, c, .error _ :: rest => archiveScan ((id + 1) % 256) d c rest
  | id, d, c, .ok m :: rest =>
    match matchMember m.identifier with
    | none => archiveScan ((id + 1) % 256) d c rest
    | some (slot, codec) =>
      let d₁ := if slot = Slot.dataSlot then some (id, codec) else d
      let c₁ := if slot = Slot.controlSlot then some (id, codec) else c
      if d₁.isSome && c₁.isSome then (d₁, c₁)
      else archiveScan ((id + 1) % 256) d₁ c₁ rest

/-- `Archive::new`: scan the container, then fail on a missing data
member first and a missing control member second, with
`io::ErrorKind::InvalidData` and a message naming the source path. -/
def Archive.new (path : String) (deb : DebFile) : Except IoError Archive :=
  match archiveScan 0 none none deb with
  | (none, _) => .error ⟨.invalidData, "data archive not found in " ++ path⟩
  | (some _, none) => .error ⟨.invalidData, "control archive not found in " ++ path⟩
  | (some d, some c) => .ok ⟨path, d, c⟩

/-- Model of `ar::Archive::jump_to_entry(id)`: the member at ordinal
`id`; an error when the index is out of range or that member is
malformed. -/
def jumpToEntry (deb : DebFile) (id : Nat) : Except IoError ArMember :=
  match deb[id]? with
  | some (.ok m) => .ok m
  | some (.error _) => .error ⟨.invalidData, "malformed archive member"⟩
  | none => .error ⟨.notFound, "archive member index out of range"⟩

/-- Model of the error produced by `zstd::Decoder::new` on a stream
that does not begin with a valid zstd frame header. -/
def zstdOpenError : IoError := ⟨.other, "zstd: failed to construct decoder"⟩

/-- Model of the error produced by `libflate::gzip::Decoder::new` on a
stream that does not begin with a valid gzip header. -/
def gzOpenError : IoError := ⟨.invalidData, "gzip: invalid header"⟩

/-- `Archive::open_archive`: reopen the container, jump to the member
at ordinal `id`, construct the decoder for `codec`, and hand the
decompressed stream to `func`.  The zstd and gzip constructors are
fallible (`Decoder::new(..)?` in the source); `XzDecoder::new` is not
(no `?` in the source), so for xz the stream is always handed to
`func` and bad xz data surfaces only from later reads, i.e. inside the
tar content. -/
def Archive.open_archive {T : Type} (deb : DebFile) (id : Nat) (codec : Codec)
    (func : List (Except IoError TarEntry) → T) : Except IoError T :=
  match jumpToEntry deb id with
  | .error e => .error e
  | .ok m =>
    match codec with
    | .zstd => if m.zstdHeaderOk then .ok (func m.tarContent) else .error zstdOpenError
    | .xz => .ok (func m.tarContent)
    | .gz => if m.gzHeaderOk then .ok (func m.tarContent) else .error gzOpenError

/-- Decoder construction for `codec` succeeds on member `m` (xz
construction never fails). -/
def decoderOk (m : ArMember) : Codec → Bool
  | .zstd => m.zstdHeaderOk
  | .xz => true
  | .gz => m.gzHeaderOk

/-- The entry loop of `Archive::iter_entries`: a read error aborts,
directory entries are skipped, and the visitor runs on every other
entry, its failure aborting the iteration. -/
def tarVisitGo (action : TarEntry → Except IoError Unit) :
    List (Except IoError TarEntry) → Except IoError Unit
  | [] => .ok ()
  | .error e :: _ => .error e
  | .ok ent :: rest =>
    if ent.isDir then tarVisitGo action rest
    else
      match action ent with
      | .error e => .error e
      | .ok _ => tarVisitGo action rest

def Archive.iter_entries (deb : DebFile) (action : TarEntry → Except IoError Unit)
    (id : Nat) (codec : Codec) : Except IoError Unit :=
  match Archive.open_archive deb id codec (fun stream => tarVisitGo action stream) with
  | .error e => .error e
  | .ok r => r

def Archive.inner_data (deb : DebFile) (a : Archive)
    (action : TarEntry → Except IoError Unit) : Except IoError Unit :=
  Archive.iter_entries deb action a.data.1 a.data.2

def Archive.inner_control (deb : DebFile) (a : Archive)
    (action : TarEntry → Except IoError Unit) : Except IoError Unit :=
  Archive.iter_entries deb action a.control.1 a.control.2

/-- `Archive::data` (named `data_entries` here only because the Lean
structure already uses `data` for the field): wraps any failure of
`inner_data` in a fresh error of kind `Other` whose message names the
source path and the data member. -/
def Archive.data_entries (deb : DebFile) (a : Archive)
    (action : TarEntry → Except IoError Unit) : Except IoError Unit :=
  match Archive.inner_data deb a action with
  | .error why =>
    .error ⟨.other, "error reading data archive within " ++ a.path ++ ": " ++ why.msg⟩
  | .ok r => .ok r

/-- `Archive::control` (named `control_entries` here, see
`data_entries`): wraps any failure of `inner_control` in a fresh error
of kind `Other` whose message names the source path and the control
member. -/
def Archive.control_entries (deb : DebFile) (a : Archive)
    (action : TarEntry → Except IoError Unit) : Except IoError Unit :=
  match Archive.inner_control deb a action with
  | .error why =>
    .error ⟨.other, "error reading control archive within " ++ a.path ++ ": " ++ why.msg⟩
  | .ok r => .ok r

/-- `Archive::extract`: the destination-directory prelude
(`path.exists()` check plus `fs::create_dir_all`) is modelled by its
outcome `dirResult`, and the tar unpack of the decompressed stream by
the function `unpack`.  Note that, unlike `control`/`data`, no
contextual wrapping is applied to any failure here. -/
def Archive.extract (deb : DebFile) (dirResult : Except IoError Unit)
    (unpack : List (Except IoError TarEntry) → Except IoError Unit)
    (id : Nat) (codec : Codec) : Except IoError Unit :=
  match dirResult with
  | .error e => .error e
  | .ok _ =>
    match Archive.open_archive deb id codec unpack with
    | .error e => .error e
    | .ok r => r

/-- `Archive::control_extract`. -/
def Archive.control_extract (deb : DebFile) (a : Archive)
    (dirResult : Except IoError Unit)
    (unpack : List (Except IoError TarEntry) → Except IoError Unit) : Except IoError Unit :=
  Archive.extract deb dirResult unpack a.control.1 a.control.2

/-- `Archive::data_extract`. -/
def Archive.data_extract (deb : DebFile) (a : Archive)
    (dirResult : Except IoError Unit)
    (unpack : List (Except IoError TarEntry) → Except IoError Unit) : Except IoError Unit :=
  Archive.extract deb dirResult unpack a.data.1 a.data.2

/-- `Archive::inner_control_map`: open the control member and fold its
tar entries through `controlMapGo` with the `BTreeMap` insert, starting
from the empty map. -/
def Archive.inner_control_map (deb : DebFile) (a : Archive) : Except IoError BTMap :=
  match Archive.open_archive deb a.control.1 a.control.2
      (fun stream => controlMapGo btInsert stream []) with
  | .error e => .error e
  | .ok r => r

/-- `Archive::control_map`: `inner_control_map` with its failure
wrapped exactly as in `Archive::control`. -/
def Archive.control_map (deb : DebFile) (a : Archive) : Except IoError BTMap :=
  match Archive.inner_control_map deb a with
  | .error why =>
    .error ⟨.other, "error reading control archive within " ++ a.path ++ ": " ++ why.msg⟩
  | .ok r => .ok r

/-- Modelled from the spec: §3 describes the Control Mapping as "an
ordered collection of (key, value) pairs, keys unique (last write wins
on duplicate keys), insertion order preserved for determinism".  This
is the insert of such an insertion-ordered mapping: overwrite the value
at the key's first-insertion position, otherwise append. -/
def specInsert (k v : String) : BTMap → BTMap
  | [] => [(k, v)]
  | (k₁, v₁) :: rest =>
    if k₁ = k then (k, v) :: rest else (k₁, v₁) :: specInsert k v rest

/-- Modelled from the spec: `inner_control_map` with the spec's
insertion-ordered mapping in place of the source's `BTreeMap`; the
line-by-line parse is identical. -/
def Archive.spec_inner_control_map (deb : DebFile) (a : Archive) : Except IoError BTMap :=
  match Archive.open_archive deb a.control.1 a.control.2
      (fun stream => controlMapGo specInsert stream []) with
  | .error e => .error e
  | .ok r => r

/-- Modelled from the spec: the public control-mapping operation over
the insertion-ordered mapping. -/
def Archive.spec_control_map (deb : DebFile) (a : Archive) : Except IoError BTMap :=
  match Archive.spec_inner_control_map deb a with
  | .error why =>
    .error ⟨.other, "error reading control archive within " ++ a.path ++ ": " ++ why.msg⟩
  | .ok r => .ok r

/-! ### Helper lemmas -/

theorem consumeCont_length_le (value : String) (ls : List (Except IoError String)) :
    (consumeCont value ls).2.length ≤ ls.length := by
  induction ls generalizing value with
  | nil => simp [consumeCont]
  | cons x rest ih =>
    cases x with
    | error e => simp [consumeCont]
    | ok l =>
      by_cases h : startsWithSpace l = true
      · simp only [consumeCont, h, if_true]
        exact Nat.le_succ_of_le (ih _)
      · simp [consumeCont, h]

/-- The fuel argument of `parseLinesFuel` is irrelevant as long as it
exceeds the number of remaining lines. -/
theorem parseLinesFuel_fuel_irrel (ins : String → String → BTMap → BTMap) :
    ∀ (n₁ n₂ : Nat) (du : Bool) (acc : BTMap) (lines : List (Except IoError String)),
    lines.length < n₁ → lines.length < n₂ →
    parseLinesFuel ins n₁ du acc lines = parseLinesFuel ins n₂ du acc lines := by
  intro n₁
  induction n₁ with
  | zero => intro n₂ du acc lines h₁ _; exact absurd h₁ (by omega)
  | succ k ih =>
    intro n₂ du acc lines h₁ h₂
    cases n₂ with
    | zero => exact absurd h₂ (by omega)
    | succ j =>
      cases lines with
      | nil => simp [parseLinesFuel]
      | cons x rest =>
        have hr₁ : rest.length < k := by simp at h₁; omega
        have hr₂ : rest.length < j := by simp at h₂; omega
        cases x with
        | error e => simp [parseLinesFuel]
        | ok line =>
          simp only [parseLinesFuel]
          cases hsk : splitKV line with
          | none => simp only [hsk]; exact ih j du acc rest hr₁ hr₂
          | some kv =>
            obtain ⟨key, v₀⟩ := kv
            simp only [hsk]
            by_cases hd : (du && (key == "Description")) = true
            · simp only [hd, if_true]
              exact ih j false _ _
                (lt_of_le_of_lt (consumeCont_length_le _ _) hr₁)
                (lt_of_le_of_lt (consumeCont_length_le _ _) hr₂)
            · simp only [hd, if_false]
              exact ih j du _ rest hr₁ hr₂

theorem char_toNat_inj {a b : Char} (h : a.toNat = b.toNat) : a = b :=
  Char.eq_of_val_eq (UInt32.eq_of_val_eq (Fin.eq_of_val_eq h))

theorem charsLtb_trans : ∀ (a b c : List Char),
    charsLtb a b = true → charsLtb b c = true → charsLtb a c = true
  | [], _ :: _, _ :: _, _, _ => rfl
  | [], [], _, h, _ => by simp [charsLtb] at h
  | [], _ :: _, [], _, h => by simp [charsLtb] at h
  | _ :: _, [], _, h, _ => by simp [charsLtb] at h
  | _ :: _, _ :: _, [], _, h => by simp [charsLtb] at h
  | a :: as, b :: bs, c :: cs, h₁, h₂ => by
    simp only [charsLtb] at h₁ h₂ ⊢
    by_cases hab : a.toNat < b.toNat
    · by_cases hbc : b.toNat < c.toNat
      · have hac : a.toNat < c.toNat := by omega
        simp [hac]
      · by_cases hcb : c.toNat < b.toNat
        · simp [hbc, hcb] at h₂
        · have hac : a.toNat < c.toNat := by omega
          simp [hac]
    · by_cases hba : b.toNat < a.toNat
      · simp [hab, hba] at h₁
      · simp only [hab, if_false, hba] at h₁
        by_cases hbc : b.toNat < c.toNat
        · have hac : a.toNat < c.toNat := by omega
          simp [hac]
        · by_cases hcb : c.toNat < b.toNat
          · simp [hbc, hcb] at h₂
          · simp only [hbc, if_false, hcb] at h₂
            have hac : ¬ a.toNat < c.toNat := by omega
            have hca : ¬ c.toNat < a.toNat := by omega
            simp only [hac, if_false, hca]
            exact charsLtb_trans as bs cs h₁ h₂

theorem charsLtb_total : ∀ (a b : List Char),
    charsLtb a b = true ∨ a = b ∨ charsLtb b a = true
  | [], [] => Or.inr (Or.inl rfl)
  | [], _ :: _ => Or.inl rfl
  | _ :: _, [] => Or.inr (Or.inr rfl)
  | a :: as, b :: bs => by
    by_cases hab : a.toNat < b.toNat
    · exact Or.inl (by simp [charsLtb, hab])
    · by_cases hba : b.toNat < a.toNat
      · exact Or.inr (Or.inr (by simp [charsLtb, hba]))
      · have heq : a = b := char_toNat_inj (by omega)
        rcases charsLtb_total as bs with h | h | h
        · exact Or.inl (by simp [charsLtb, hab, hba, h])
        · exact Or.inr (Or.inl (by rw [heq, h]))
        · exact Or.inr (Or.inr (by simp [charsLtb, hab, hba, heq, h]))

theorem strLtb_trans {a b c : String} (h₁ : strLtb a b = true) (h₂ : strLtb b c = true) :
    strLtb a c = true :=
  charsLtb_trans a.data b.data c.data h₁ h₂

theorem strLtb_total (a b : String) : strLtb a b = true ∨ a = b ∨ strLtb b a = true := by
  rcases charsLtb_total a.data b.data with h | h | h
  · exact Or.inl h
  · refine Or.inr (Or.inl ?_)
    cases a; cases b; exact congrArg String.mk (by simpa using h)
  · exact Or.inr (Or.inr h)

/-- The key order used to state sortedness of the `BTreeMap` model. -/
def keyLt (p q : String × String) : Prop :=
  strLtb p.1 q.1 = true

theorem btInsert_mem {k v : String} :
    ∀ {m : BTMap} {x : String × String}, x ∈ btInsert k v m → x = (k, v) ∨ x ∈ m := by
  intro m
  induction m with
  | nil => intro x hx; simp [btInsert] at hx; exact Or.inl hx
  | cons p rest ih =>
    obtain ⟨k₁, v₁⟩ := p
    intro x hx
    simp only [btInsert] at hx
    by_cases h₁ : strLtb k k₁ = true
    · simp only [h₁, if_true] at hx
      rcases List.mem_cons.mp hx with h | h
      · exact Or.inl h
      · exact Or.inr h
    · simp only [h₁, if_false] at hx
      by_cases h₂ : k = k₁
      · simp only [h₂, if_true] at hx
        rcases List.mem_cons.mp hx with h | h
        · exact Or.inl (by rw [h, h₂])
        · exact Or.inr (List.mem_cons_of_mem _ h)
      · simp only [h₂, if_false] at hx
        rcases List.mem_cons.mp hx with h | h
        · exact Or.inr (by rw [h]; exact List.mem_cons_self _ _)
        · rcases ih h with h' | h'
          · exact Or.inl h'
          · exact Or.inr (List.mem_cons_of_mem _ h')

theorem btInsert_pairwise {k v : String} :
    ∀ {m : BTMap}, m.Pairwise keyLt → (btInsert k v m).Pairwise keyLt := by
  intro m
  induction m with
  | nil => intro _; simp [btInsert, keyLt]
  | cons p rest ih =>
    obtain ⟨k₁, v₁⟩ := p
    intro hp
    rw [List.pairwise_cons] at hp
    obtain ⟨hhead, htail⟩ := hp
    simp only [btInsert]
    by_cases h₁ : strLtb k k₁ = true
    · simp only [h₁, if_true]
      rw [List.pairwise_cons]
      refine ⟨?_, List.pairwise_cons.mpr ⟨hhead, htail⟩⟩
      intro x hx
      rcases List.mem_cons.mp hx with rfl | hx
      · exact h₁
      · exact strLtb_trans h₁ (hhead x hx)
    · by_cases h₂ : k = k₁
      · rw [if_neg h₁, if_pos h₂]
        rw [List.pairwise_cons]
        refine ⟨?_, htail⟩
        intro x hx
        have := hhead x hx
        simpa [keyLt, h₂] using this
      · rw [if_neg h₁, if_neg h₂]
        rw [List.pairwise_cons]
        refine ⟨?_, ih htail⟩
        intro x hx
        rcases btInsert_mem hx with rfl | hx
        · rcases strLtb_total k₁ k with h | h | h
          · exact h
          · exact absurd h.symm h₂
          · exact absurd h (by simpa using h₁)
        · exact hhead x hx

theorem parseLinesFuel_pairwise :
    ∀ (n : Nat) (du : Bool) (acc : BTMap) (lines : List (Except IoError String)) (m : BTMap),
    acc.Pairwise keyLt → parseLinesFuel btInsert n du acc lines = .ok m → m.Pairwise keyLt := by
  intro n
  induction n with
  | zero =>
    intro du acc lines m hacc h
    simp only [parseLinesFuel] at h
    cases h
    exact hacc
  | succ k ih =>
    intro du acc lines m hacc h
    cases lines with
    | nil =>
      simp only [parseLinesFuel] at h
      cases h
      exact hacc
    | cons x rest =>
      cases x with
      | error e => simp [parseLinesFuel] at h
      | ok line =>
        simp only [parseLinesFuel] at h
        cases hsk : splitKV line with
        | none =>
          simp only [hsk] at h
          exact ih du acc rest m hacc h
        | some kv =>
          obtain ⟨key, v₀⟩ := kv
          simp only [hsk] at h
          by_cases hd : (du && (key == "Description")) = true
          · simp only [hd, if_true] at h
            exact ih false _ _ m (btInsert_pairwise hacc) h
          · simp only [hd, if_false] at h
            exact ih du _ rest m (btInsert_pairwise hacc) h

theorem controlMapGo_pairwise :
    ∀ (stream : List (Except IoError TarEntry)) (acc m : BTMap),
    acc.Pairwise keyLt → controlMapGo btInsert stream acc = .ok m → m.Pairwise keyLt := by
  intro stream
  induction stream with
  | nil =>
    intro acc m hacc h
    simp only [controlMapGo] at h
    cases h
    exact hacc
  | cons x rest ih =>
    intro acc m hacc h
    cases x with
    | error e => simp [controlMapGo] at h
    | ok ent =>
      simp only [controlMapGo] at h
      by_cases hp : (pathEq ent.path "./control" || pathEq ent.path "control") = true
      · simp only [hp, if_true] at h
        cases hpar : parseControlLines btInsert true acc ent.lines with
        | error e => rw [hpar] at h; simp at h
        | ok acc₁ =>
          rw [hpar] at h
          simp only [] at h
          exact ih acc₁ m (parseLinesFuel_pairwise _ true acc ent.lines acc₁ hacc hpar) h
      · simp only [hp, if_false] at h
        exact ih acc m hacc h

theorem open_archive_ok {T : Type} (deb : DebFile) (id : Nat) (codec : Codec) (m : ArMember)
    (func : List (Except IoError TarEntry) → T)
    (hj : jumpToEntry deb id = .ok m) (hd : decoderOk m codec = true) :
    Archive.open_archive deb id codec func = .ok (func m.tarContent) := by
  unfold Archive.open_archive
  rw [hj]
  cases codec with
  | xz => rfl
  | zstd => simp only [decoderOk] at hd; simp [hd]
  | gz => simp only [decoderOk] at hd; simp [hd]

theorem open_archive_ok_elim {T : Type} {deb : DebFile} {id : Nat} {codec : Codec}
    {func : List (Except IoError TarEntry) → T} {t : T}
    (h : Archive.open_archive deb id codec func = .ok t) :
    ∃ m : ArMember, jumpToEntry deb id = .ok m ∧ t = func m.tarContent := by
  unfold Archive.open_archive at h
  cases hj : jumpToEntry deb id with
  | error e => rw [hj] at h; simp at h
  | ok m =>
    rw [hj] at h
    refine ⟨m, rfl, ?_⟩
    cases codec with
    | xz => simp at h; exact h.symm
    | zstd =>
      by_cases hz : m.zstdHeaderOk = true
      · simp [hz] at h; exact h.symm
      · simp only [Bool.not_eq_true] at hz; simp [hz] at h
    | gz =>
      by_cases hz : m.gzHeaderOk = true
      · simp [hz] at h; exact h.symm
      · simp only [Bool.not_eq_true] at hz; simp [hz] at h

theorem tarVisitGo_congr {a₁ a₂ : TarEntry → Except IoError Unit}
    (h : ∀ e : TarEntry, e.isDir = false → a₁ e = a₂ e) :
    ∀ stream : List (Except IoError TarEntry), tarVisitGo a₁ stream = tarVisitGo a₂ stream := by
  intro stream
  induction stream with
  | nil => rfl
  | cons x rest ih =>
    cases x with
    | error e => rfl
    | ok ent =>
      simp only [tarVisitGo]
      by_cases hd : ent.isDir = true
      · simp [hd, ih]
      · simp only [Bool.not_eq_true] at hd
        rw [h ent hd]
        cases ha : a₂ ent <;> simp [hd, ha, ih]

/-- An unrecognized container member (e.g. `debian-binary`). -/
def junkMember : ArMember := ⟨"debian-binary", true, true, []⟩

theorem matchMember_junk : matchMember junkMember.identifier = none := rfl

theorem archiveScan_err_step (id : Nat) (d c : Option (Nat × Codec)) (u : Unit) (rest : DebFile) :
    archiveScan id d c (.error u :: rest) = archiveScan ((id + 1) % 256) d c rest := rfl

theorem archiveScan_skip_step (id : Nat) (d c : Option (Nat × Codec)) (m : ArMember)
    (rest : DebFile) (hm : matchMember m.identifier = none) :
    archiveScan id d c (.ok m :: rest) = archiveScan ((id + 1) % 256) d c rest := by
  simp only [archiveScan, hm]

theorem archiveScan_hit_step (id : Nat) (d c : Option (Nat × Codec)) (m : ArMember)
    (rest : DebFile) (slot : Slot) (codec : Codec)
    (hm : matchMember m.identifier = some (slot, codec)) :
    archiveScan id d c (.ok m :: rest) =
      (if ((if slot = Slot.dataSlot then some (id, codec) else d).isSome &&
           (if slot = Slot.controlSlot then some (id, codec) else c).isSome) = true
       then ((if slot = Slot.dataSlot then some (id, codec) else d),
             (if slot = Slot.controlSlot then some (id, codec) else c))
       else archiveScan ((id + 1) % 256)
              (if slot = Slot.dataSlot then some (id, codec) else d)
              (if slot = Slot.controlSlot then some (id, codec) else c) rest) := by
  simp only [archiveScan, hm]

/-- Once both slots are filled the scan has broken out of the loop, so
appending further members does not change the result. -/
theorem archiveScan_break_append :
    ∀ (pre : DebFile) (id : Nat) (d c : Option (Nat × Codec)) (extra : DebFile),
    (d.isSome && c.isSome) = false →
    (archiveScan id d c pre).1.isSome = true → (archiveScan id d c pre).2.isSome = true →
    archiveScan id d c (pre ++ extra) = archiveScan id d c pre := by
  intro pre
  induction pre with
  | nil =>
    intro id d c extra hnb h₁ h₂
    simp only [archiveScan] at h₁ h₂
    rw [h₁, h₂] at hnb
    simp at hnb
  | cons x rest ih =>
    intro id d c extra hnb h₁ h₂
    cases x with
    | error u =>
      rw [archiveScan_err_step] at h₁ h₂
      rw [List.cons_append, archiveScan_err_step, archiveScan_err_step]
      exact ih _ d c extra hnb h₁ h₂
    | ok m =>
      cases hm : matchMember m.identifier with
      | none =>
        rw [archiveScan_skip_step _ _ _ _ _ hm] at h₁ h₂
        rw [List.cons_append, archiveScan_skip_step _ _ _ _ _ hm,
          archiveScan_skip_step _ _ _ _ _ hm]
        exact ih _ d c extra hnb h₁ h₂
      | some sc =>
        obtain ⟨slot, codec⟩ := sc
        rw [archiveScan_hit_step _ _ _ _ _ _ _ hm] at h₁ h₂
        rw [List.cons_append, archiveScan_hit_step _ _ _ _ _ _ _ hm,
          archiveScan_hit_step _ _ _ _ _ _ _ hm]
        set d₁ := if slot = Slot.dataSlot then some (id, codec) else d with hd₁
        set c₁ := if slot = Slot.controlSlot then some (id, codec) else c with hc₁
        by_cases hb : (d₁.isSome && c₁.isSome) = true
        · simp [hb]
        · have hb₀ : (d₁.isSome && c₁.isSome) = false := by
            cases hq : (d₁.isSome && c₁.isSome) with
            | false => rfl
            | true => exact absurd hq hb
          simp only [hb₀, Bool.false_eq_true, if_false] at h₁ h₂ ⊢
          exact ih _ d₁ c₁ extra hb₀ h₁ h₂

/-- Scanning past `n` unrecognized members advances the wrapping `u8`
counter by `n` modulo 256. -/
theorem archiveScan_replicate_junk :
    ∀ (n id : Nat), id < 256 → ∀ (d c : Option (Nat × Codec)) (rest : DebFile),
    archiveScan id d c (List.replicate n (Except.ok junkMember) ++ rest) =
      archiveScan ((id + n) % 256) d c rest := by
  intro n
  induction n with
  | zero =>
    intro id hid d c rest
    simp [Nat.mod_eq_of_lt hid]
  | succ k ih =>
    intro id hid d c rest
    rw [List.replicate_succ, List.cons_append, archiveScan_skip_step _ _ _ _ _ matchMember_junk]
    rw [ih ((id + 1) % 256) (Nat.mod_lt _ (by norm_num)) d c rest]
    congr 1
    omega

/-! ### Concrete fixtures -/

def exLines : List (Except IoError String) :=
  [.ok "Package: foo", .ok "Version: 1.0", .ok "Description: short summary",
   .ok " a continuation line", .ok " another continuation line", .ok "Maintainer: a@b.com"]

def exDeb (p : String) : DebFile :=
  [.ok ⟨"data.tar.gz", true, true, []⟩,
   .ok ⟨"control.tar.gz", true, true, [.ok ⟨p, false, exLines⟩]⟩]

def exArchive : Archive := ⟨"pkg.deb", (0, .gz), (1, .gz)⟩

def exResult : BTMap :=
  [("Description", "short summary\n a continuation line\n another continuation line"),
   ("Maintainer", "a@b.com"), ("Package", "foo"), ("Version", "1.0")]

/-! ### Claims -/

/-- Claim C1: for a well-formed archive whose control tar contains an
entry named `control` (or `./control`) with the lines `Package: foo`,
`Version: 1.0`, `Description: short summary`, ` a continuation line`,
` another continuation line`, `Maintainer: a@b.com`, the
control-mapping operation returns a mapping with exactly 4 keys in
which `Description` maps to the folded value (continuation lines
appended with a newline separator, leading space preserved, not
reprocessed as key-value pairs) and `Maintainer` maps to `a@b.com`. -/
theorem C1_control_map_example :
    Archive.control_map (exDeb "control") exArchive = .ok exResult ∧
    Archive.control_map (exDeb "./control") exArchive = .ok exResult ∧
    exResult.length = 4 :=
  ⟨rfl, rfl, rfl⟩

def c2Deb : DebFile :=
  [.ok ⟨"control.tar.gz", true, true,
     [.ok ⟨"control", false, [.ok "Version: 1.0", .ok "Package: foo"]⟩]⟩]

def c2Archive : Archive := ⟨"pkg.deb", (0, .gz), (0, .gz)⟩

/-- Claim C2, counterexample: for the control file with lines
`Version: 1.0` then `Package: foo`, the keys are first inserted in the
order `Version`, `Package`, yet the mapping returned by the source's
control-mapping operation enumerates as `Package`, `Version` (the
source returns a `BTreeMap`, ordered by key): the claimed
insertion-order enumeration (the spec-modelled
`Archive.spec_control_map`) differs from what the code returns. -/
theorem C2_counterexample :
    Archive.control_map c2Deb c2Archive = .ok [("Package", "foo"), ("Version", "1.0")] ∧
    Archive.spec_control_map c2Deb c2Archive = .ok [("Version", "1.0"), ("Package", "foo")] ∧
    ([("Package", "foo"), ("Version", "1.0")] : BTMap) ≠
      [("Version", "1.0"), ("Package", "foo")] :=
  ⟨rfl, rfl, by decide⟩

/-- Claim C2 (amended): the mapping returned by the control-mapping
operation is ordered by key, not by insertion: enumerating it yields
the pairs strictly sorted by the lexicographic key order (hence
deterministically), regardless of the order in which keys were
inserted during the parse. -/
theorem C2_amended_sorted_by_key (deb : DebFile) (a : Archive) (m : BTMap)
    (h : Archive.control_map deb a = .ok m) : m.Pairwise keyLt := by
  unfold Archive.control_map at h
  cases hin : Archive.inner_control_map deb a with
  | error e => rw [hin] at h; simp at h
  | ok r =>
    rw [hin] at h
    simp only [Except.ok.injEq] at h
    subst h
    unfold Archive.inner_control_map at hin
    cases hop : Archive.open_archive deb a.control.1 a.control.2
        (fun stream => controlMapGo btInsert stream []) with
    | error e => rw [hop] at hin; simp at hin
    | ok t =>
      rw [hop] at hin
      obtain ⟨mem, _, ht⟩ := open_archive_ok_elim hop
      rw [ht] at hin
      exact controlMapGo_pairwise mem.tarContent [] r List.Pairwise.nil hin

/-- Witness for C2's amended theorem at a concrete archive. -/
theorem C2_amended_witness : List.Pairwise keyLt exResult :=
  C2_amended_sorted_by_key (exDeb "control") exArchive exResult rfl

/-- Claim C3: the continuation rule engages only on the first
`Description` key.  (1) With the `description_unset` flag already
cleared, a further `Description` line is stored as a plain key-value
pair — overwriting any earlier value via the map insert — and consumes
none of the following lines.  (2) With the flag set, a `Description`
line runs the continuation loop and clears the flag.  (3) End to end:
after a first `Description` with a continuation line, a second
`Description` line overwrites the folded value, and the space-prefixed
line after it is reprocessed as an ordinary key-value line instead of
being consumed as a continuation. -/
theorem C3_second_description_plain :
    (∀ (acc : BTMap) (rest : List (Except IoError String)) (l v : String),
      splitKV l = some ("Description", v) →
      parseControlLines btInsert false acc (.ok l :: rest) =
        parseControlLines btInsert false (btInsert "Description" (rustTrim v) acc) rest) ∧
    (∀ (acc : BTMap) (rest : List (Except IoError String)) (l v : String),
      splitKV l = some ("Description", v) →
      parseControlLines btInsert true acc (.ok l :: rest) =
        parseControlLines btInsert false
          (btInsert "Description" (consumeCont (rustTrim v) rest).1 acc)
          (consumeCont (rustTrim v) rest).2) ∧
    (∀ tail : List (Except IoError String),
      parseControlLines btInsert true []
        (.ok "Description: a" :: .ok " c1" :: .ok "Description: b" :: .ok " c2: v" :: tail) =
        parseControlLines btInsert false [(" c2", "v"), ("Description", "b")] tail) := by
  refine ⟨?_, ?_, ?_⟩
  · intro acc rest l v h
    simp [parseControlLines, parseLinesFuel, h]
  · intro acc rest l v h
    have hlen : (consumeCont (rustTrim v) rest).2.length ≤ rest.length :=
      consumeCont_length_le _ _
    simp only [parseControlLines, parseLinesFuel, h, Bool.true_and, List.length_cons]
    rw [if_pos (by simp)]
    exact parseLinesFuel_fuel_irrel btInsert (rest.length + 1)
      ((consumeCont (rustTrim v) rest).2.length + 1) false _ _
      (by omega) (by omega)
  · intro tail
    have hstep : parseControlLines btInsert true []
        (.ok "Description: a" :: .ok " c1" :: .ok "Description: b" :: .ok " c2: v" :: tail) =
        parseLinesFuel btInsert (tail.length + 2) false
          [(" c2", "v"), ("Description", "b")] tail := rfl
    rw [hstep]
    exact parseLinesFuel_fuel_irrel btInsert (tail.length + 2) (tail.length + 1) false _ tail
      (by omega) (by omega)

/-- Witness for C3 at concrete inputs: a second `Description` line with
the flag cleared overwrites the stored value and consumes nothing. -/
theorem C3_witness :
    parseControlLines btInsert false [("Description", "old")]
        [.ok "Description: b", .ok " sp"] =
      parseControlLines btInsert false [("Description", "b")] [.ok " sp"] :=
  C3_second_description_plain.1 [("Description", "old")] [.ok " sp"] "Description: b" " b" rfl

/-- Claim C4: if the control tar stream contains no entry whose path is
`control` or `./control` (path equality as the source performs it:
Rust `Path` equality on components), the control-mapping operation
returns an empty mapping and does not return an error.  The hypotheses
say the control member is reachable and its stream readable, i.e.
there is a stream to search. -/
theorem C4_no_control_entry_empty (deb : DebFile) (a : Archive) (m : ArMember)
    (hj : jumpToEntry deb a.control.1 = .ok m)
    (hd : decoderOk m a.control.2 = true)
    (hstream : ∀ x ∈ m.tarContent, ∃ ent : TarEntry, x = .ok ent ∧
      pathEq ent.path "./control" = false ∧ pathEq ent.path "control" = false) :
    Archive.control_map deb a = .ok [] := by
  have hgo : ∀ (stream : List (Except IoError TarEntry)) (acc : BTMap),
      (∀ x ∈ stream, ∃ ent : TarEntry, x = .ok ent ∧
        pathEq ent.path "./control" = false ∧ pathEq ent.path "control" = false) →
      controlMapGo btInsert stream acc = .ok acc := by
    intro stream
    induction stream with
    | nil => intro acc _; rfl
    | cons x rest ih =>
      intro acc hx
      obtain ⟨ent, hxe, h₁, h₂⟩ := hx x (List.mem_cons_self _ _)
      subst hxe
      simp only [controlMapGo, h₁, h₂, Bool.or_self, Bool.false_eq_true, if_false]
      exact ih acc (fun y hy => hx y (List.mem_cons_of_mem _ hy))
  have hopen := open_archive_ok deb a.control.1 a.control.2 m
    (fun stream => controlMapGo btInsert stream []) hj hd
  unfold Archive.control_map Archive.inner_control_map
  rw [hopen]
  simp only [hgo m.tarContent [] hstream]

def c4Deb : DebFile :=
  [.ok ⟨"control.tar.gz", true, true, [.ok ⟨"md5sums", false, [.ok "ignored"]⟩]⟩]

def c4Archive : Archive := ⟨"pkg.deb", (0, .gz), (0, .gz)⟩

/-- Witness for C4: a control tar holding only an `md5sums` entry
yields the empty mapping. -/
theorem C4_witness : Archive.control_map c4Deb c4Archive = .ok [] :=
  C4_no_control_entry_empty c4Deb c4Archive
    ⟨"control.tar.gz", true, true, [.ok ⟨"md5sums", false, [.ok "ignored"]⟩]⟩ rfl rfl
    (by
      intro x hx
      rw [List.mem_singleton] at hx
      subst hx
      exact ⟨_, rfl, rfl, rfl⟩)

/-- Claim C5: for a container scanned to completion, a missing data
member fails construction with the invalid-data "data archive not
found" error naming the source path; a present data member with a
missing control member fails with the "control archive not found"
error naming the path; and when both are missing the reported failure
is the data one (data is checked first). -/
theorem C5_missing_member_errors (path : String) (deb : DebFile) :
    ((archiveScan 0 none none deb).1 = none →
      Archive.new path deb = .error ⟨.invalidData, "data archive not found in " ++ path⟩) ∧
    ((archiveScan 0 none none deb).1.isSome = true → (archiveScan 0 none none deb).2 = none →
      Archive.new path deb = .error ⟨.invalidData, "control archive not found in " ++ path⟩) ∧
    ((archiveScan 0 none none deb).1 = none → (archiveScan 0 none none deb).2 = none →
      Archive.new path deb = .error ⟨.invalidData, "data archive not found in " ++ path⟩) := by
  refine ⟨?_, ?_, ?_⟩
  · intro h₁
    rcases hsc : archiveScan 0 none none deb with ⟨d, c⟩
    rw [hsc] at h₁
    simp only [] at h₁
    subst h₁
    unfold Archive.new
    rw [hsc]
  · intro h₁ h₂
    rcases hsc : archiveScan 0 none none deb with ⟨d, c⟩
    rw [hsc] at h₁ h₂
    simp only [] at h₁ h₂
    subst h₂
    obtain ⟨d₀, rfl⟩ := Option.isSome_iff_exists.mp h₁
    unfold Archive.new
    rw [hsc]
  · intro h₁ _
    rcases hsc : archiveScan 0 none none deb with ⟨d, c⟩
    rw [hsc] at h₁
    simp only [] at h₁
    subst h₁
    unfold Archive.new
    rw [hsc]

/-- Witness for C5: the empty container reports the data member first;
a container with only a data member reports the control member. -/
theorem C5_witness :
    Archive.new "pkg.deb" ([] : DebFile) =
      .error ⟨.invalidData, "data archive not found in " ++ "pkg.deb"⟩ ∧
    Archive.new "pkg.deb" [.ok ⟨"data.tar.gz", true, true, []⟩] =
      .error ⟨.invalidData, "control archive not found in " ++ "pkg.deb"⟩ :=
  ⟨(C5_missing_member_errors "pkg.deb" []).1 rfl,
   (C5_missing_member_errors "pkg.deb" [.ok ⟨"data.tar.gz", true, true, []⟩]).2.1 rfl rfl⟩

/-- Claim C6: exactly the six member identifiers
{data,control}.tar.{gz,xz,zst} are recognized, each mapped to its
matching codec and recorded with the current ordinal into the data or
control slot; a malformed entry and an unrecognized identifier are
both skipped non-fatally (the counter still advances); and the scan
stops early once both slots are filled (appending further members
changes nothing). -/
theorem C6_recognized_members :
    (∀ s : String, (matchMember s).isSome = true ↔
      s ∈ ["data.tar.xz", "data.tar.gz", "data.tar.zst",
           "control.tar.xz", "control.tar.gz", "control.tar.zst"]) ∧
    (matchMember "data.tar.gz" = some (.dataSlot, .gz) ∧
     matchMember "data.tar.xz" = some (.dataSlot, .xz) ∧
     matchMember "data.tar.zst" = some (.dataSlot, .zstd) ∧
     matchMember "control.tar.gz" = some (.controlSlot, .gz) ∧
     matchMember "control.tar.xz" = some (.controlSlot, .xz) ∧
     matchMember "control.tar.zst" = some (.controlSlot, .zstd)) ∧
    (∀ (id : Nat) (d c : Option (Nat × Codec)) (u : Unit) (rest : DebFile),
      archiveScan id d c (.error u :: rest) = archiveScan ((id + 1) % 256) d c rest) ∧
    (∀ (id : Nat) (d c : Option (Nat × Codec)) (m : ArMember) (rest : DebFile),
      matchMember m.identifier = none →
      archiveScan id d c (.ok m :: rest) = archiveScan ((id + 1) % 256) d c rest) ∧
    (∀ (id : Nat) (d c : Option (Nat × Codec)) (m : ArMember) (rest : DebFile)
       (slot : Slot) (codec : Codec),
      matchMember m.identifier = some (slot, codec) →
      archiveScan id d c (.ok m :: rest) =
        (if ((if slot = Slot.dataSlot then some (id, codec) else d).isSome &&
             (if slot = Slot.controlSlot then some (id, codec) else c).isSome) = true
         then ((if slot = Slot.dataSlot then some (id, codec) else d),
               (if slot = Slot.controlSlot then some (id, codec) else c))
         else archiveScan ((id + 1) % 256)
                (if slot = Slot.dataSlot then some (id, codec) else d)
                (if slot = Slot.controlSlot then some (id, codec) else c) rest)) ∧
    (∀ (pre extra : DebFile),
      (archiveScan 0 none none pre).1.isSome = true →
      (archiveScan 0 none none pre).2.isSome = true →
      archiveScan 0 none none (pre ++ extra) = archiveScan 0 none none pre) := by
  refine ⟨?_, ⟨rfl, rfl, rfl, rfl, rfl, rfl⟩, archiveScan_err_step, archiveScan_skip_step,
    archiveScan_hit_step, ?_⟩
  · intro s
    constructor
    · intro h
      unfold matchMember at h
      split_ifs at h with h1 h2 h3 h4 h5 h6
      · subst h1; decide
      · subst h2; decide
      · subst h3; decide
      · subst h4; decide
      · subst h5; decide
      · subst h6; decide
      · simp at h
    · intro hs
      simp only [List.mem_cons, List.not_mem_nil, or_false] at hs
      rcases hs with rfl | rfl | rfl | rfl | rfl | rfl <;> rfl
  · intro pre extra h₁ h₂
    exact archiveScan_break_append pre 0 none none extra rfl h₁ h₂

def c6Pre : DebFile :=
  [.ok ⟨"data.tar.gz", true, true, []⟩, .ok ⟨"control.tar.gz", true, true, []⟩]

def c6Extra : DebFile := [.ok ⟨"data.tar.xz", true, true, []⟩]

/-- Witness for C6: once both slots are filled, trailing members are
never examined. -/
theorem C6_witness :
    archiveScan 0 none none (c6Pre ++ c6Extra) = archiveScan 0 none none c6Pre ∧
    (matchMember "data.tar.gz").isSome = true :=
  ⟨C6_recognized_members.2.2.2.2.2 c6Pre c6Extra rfl rfl,
   (C6_recognized_members.1 "data.tar.gz").mpr (by decide)⟩

def okAction : TarEntry → Except IoError Unit := fun _ => .ok ()

def c7Deb : DebFile :=
  [.ok ⟨"control.tar.gz", true, true, [.error ⟨.invalidData, "boom"⟩]⟩]

def c7Archive : Archive := ⟨"pkg.deb", (0, .gz), (0, .gz)⟩

/-- Claim C7, counterexample: an underlying invalid-data failure in the
control per-entry iteration comes back from the public operation as an
error of kind `Other` — the underlying error's kind is altered, so the
claim that the kind is not altered fails. -/
theorem C7_counterexample :
    Archive.inner_control c7Deb c7Archive okAction = .error ⟨.invalidData, "boom"⟩ ∧
    Archive.control_entries c7Deb c7Archive okAction =
      .error ⟨.other, "error reading control archive within pkg.deb: boom"⟩ ∧
    IoErrorKind.other ≠ IoErrorKind.invalidData :=
  ⟨rfl, rfl, by decide⟩

/-- Claim C7 (amended): failures of the per-entry iteration operations
are wrapped: the returned error carries a message naming the source
path and the control/data member, but its kind is `Other` — the
underlying kind is replaced, not preserved; the extract operations
apply no wrapping at all and return the underlying error unchanged. -/
theorem C7_amended_error_context :
    (∀ (deb : DebFile) (a : Archive) (action : TarEntry → Except IoError Unit) (e : IoError),
      Archive.inner_control deb a action = .error e →
      Archive.control_entries deb a action =
        .error ⟨.other, "error reading control archive within " ++ a.path ++ ": " ++ e.msg⟩) ∧
    (∀ (deb : DebFile) (a : Archive) (action : TarEntry → Except IoError Unit) (e : IoError),
      Archive.inner_data deb a action = .error e →
      Archive.data_entries deb a action =
        .error ⟨.other, "error reading data archive within " ++ a.path ++ ": " ++ e.msg⟩) ∧
    (∀ (deb : DebFile) (a : Archive) (dirResult : Except IoError Unit)
       (unpack : List (Except IoError TarEntry) → Except IoError Unit) (e : IoError),
      Archive.control_extract deb a dirResult unpack = .error e →
      dirResult = .error e ∨
      Archive.open_archive deb a.control.1 a.control.2 unpack = .error e ∨
      Archive.open_archive deb a.control.1 a.control.2 unpack = .ok (.error e)) ∧
    (∀ (deb : DebFile) (a : Archive) (dirResult : Except IoError Unit)
       (unpack : List (Except IoError TarEntry) → Except IoError Unit) (e : IoError),
      Archive.data_extract deb a dirResult unpack = .error e →
      dirResult = .error e ∨
      Archive.open_archive deb a.data.1 a.data.2 unpack = .error e ∨
      Archive.open_archive deb a.data.1 a.data.2 unpack = .ok (.error e)) := by
  refine ⟨?_, ?_, ?_, ?_⟩
  · intro deb a action e h
    unfold Archive.control_entries
    rw [h]
  · intro deb a action e h
    unfold Archive.data_entries
    rw [h]
  · intro deb a dirResult unpack e h
    unfold Archive.control_extract Archive.extract at h
    cases dirResult with
    | error e₀ =>
      simp only [Except.error.injEq] at h
      exact Or.inl (by rw [h])
    | ok u =>
      cases hop : Archive.open_archive deb a.control.1 a.control.2 unpack with
      | error e₁ =>
        rw [hop] at h
        simp only [Except.error.injEq] at h
        exact Or.inr (Or.inl (by rw [h]))
      | ok r =>
        rw [hop] at h
        simp at h
        exact Or.inr (Or.inr (by rw [h]))
  · intro deb a dirResult unpack e h
    unfold Archive.data_extract Archive.extract at h
    cases dirResult with
    | error e₀ =>
      simp only [Except.error.injEq] at h
      exact Or.inl (by rw [h])
    | ok u =>
      cases hop : Archive.open_archive deb a.data.1 a.data.2 unpack with
      | error e₁ =>
        rw [hop] at h
        simp only [Except.error.injEq] at h
        exact Or.inr (Or.inl (by rw [h]))
      | ok r =>
        rw [hop] at h
        simp at h
        exact Or.inr (Or.inr (by rw [h]))

/-- Witness for C7's amended theorem: the wrapped control-iteration
error at a concrete archive. -/
theorem C7_amended_witness :
    Archive.control_entries c7Deb c7Archive okAction =
      .error ⟨.other, "error reading control archive within pkg.deb: boom"⟩ :=
  C7_amended_error_context.1 c7Deb c7Archive okAction ⟨.invalidData, "boom"⟩ rfl

def idStream : List (Except IoError TarEntry) → List (Except IoError TarEntry) :=
  fun s => s

def c8Deb : DebFile :=
  [.ok ⟨"data.tar.xz", false, false, [.error ⟨.invalidData, "xz format error"⟩]⟩]

/-- Claim C8, counterexample: a member whose bytes begin with no valid
frame header for any codec (modelled: no valid zstd/gzip header, and a
stream whose first read fails) is opened as xz WITHOUT any error: the
member-opening operation returns the stream handle, and the
invalid-data failure surfaces only on the first read (during the tar
iteration) — contradicting the claim that the xz decoder fails at
stream-open time. -/
theorem C8_counterexample :
    Archive.open_archive c8Deb 0 Codec.xz idStream =
      .ok [.error ⟨.invalidData, "xz format error"⟩] ∧
    Archive.iter_entries c8Deb okAction 0 Codec.xz =
      .error ⟨.invalidData, "xz format error"⟩ :=
  ⟨rfl, rfl⟩

/-- Claim C8 (amended): when a member's compressed bytes do not begin
with a valid frame header for the recorded codec, the zstd and gzip
decoders fail at decoder-construction time and that failure is
returned by the member-opening operation itself; the xz decoder's
construction is infallible, so for xz the opening operation always
succeeds (after a successful jump) and bad data surfaces only on reads
of the returned stream. -/
theorem C8_amended_open_failures {T : Type} (deb : DebFile) (id : Nat) (m : ArMember)
    (func : List (Except IoError TarEntry) → T) (hj : jumpToEntry deb id = .ok m) :
    (m.zstdHeaderOk = false → Archive.open_archive deb id Codec.zstd func = .error zstdOpenError) ∧
    (m.gzHeaderOk = false → Archive.open_archive deb id Codec.gz func = .error gzOpenError) ∧
    Archive.open_archive deb id Codec.xz func = .ok (func m.tarContent) := by
  unfold Archive.open_archive
  rw [hj]
  refine ⟨?_, ?_, rfl⟩
  · intro hz; simp [hz]
  · intro hz; simp [hz]

def c8wMember : ArMember := ⟨"data.tar.zst", false, false, []⟩

def c8wDeb : DebFile := [.ok c8wMember]

/-- Witness for C8's amended theorem: zstd open fails on an invalid
header while xz open succeeds on the same member. -/
theorem C8_amended_witness :
    Archive.open_archive c8wDeb 0 Codec.zstd idStream = .error zstdOpenError ∧
    Archive.open_archive c8wDeb 0 Codec.xz idStream = .ok (idStream c8wMember.tarContent) :=
  ⟨(C8_amended_open_failures c8wDeb 0 c8wMember idStream rfl).1 rfl,
   (C8_amended_open_failures c8wDeb 0 c8wMember idStream rfl).2.2⟩

/-- Claim C9: the per-entry iteration operations never invoke the
visitor on an entry whose type is directory: a directory entry is
skipped by the entry loop, and the result of iterating the control or
data member depends only on the visitor's behaviour on non-directory
entries. -/
theorem C9_directories_skipped :
    (∀ (action : TarEntry → Except IoError Unit) (ent : TarEntry)
       (rest : List (Except IoError TarEntry)), ent.isDir = true →
      tarVisitGo action (.ok ent :: rest) = tarVisitGo action rest) ∧
    (∀ (deb : DebFile) (a : Archive) (a₁ a₂ : TarEntry → Except IoError Unit),
      (∀ e : TarEntry, e.isDir = false → a₁ e = a₂ e) →
      Archive.control_entries deb a a₁ = Archive.control_entries deb a a₂ ∧
      Archive.data_entries deb a a₁ = Archive.data_entries deb a a₂) := by
  constructor
  · intro action ent rest hd
    simp [tarVisitGo, hd]
  · intro deb a a₁ a₂ hagree
    have hiter : ∀ (i : Nat) (k : Codec),
        Archive.iter_entries deb a₁ i k = Archive.iter_entries deb a₂ i k := by
      intro i k
      unfold Archive.iter_entries
      have hfun : (fun stream => tarVisitGo a₁ stream) = (fun stream => tarVisitGo a₂ stream) :=
        funext (tarVisitGo_congr hagree)
      rw [hfun]
    constructor
    · unfold Archive.control_entries Archive.inner_control
      rw [hiter a.control.1 a.control.2]
    · unfold Archive.data_entries Archive.inner_data
      rw [hiter a.data.1 a.data.2]

def dirFailAction : TarEntry → Except IoError Unit :=
  fun e => if e.isDir then .error ⟨.other, "dir"⟩ else .ok ()

def c9Deb : DebFile :=
  [.ok ⟨"data.tar.gz", true, true,
     [.ok ⟨"usr", true, []⟩, .ok ⟨"usr/bin/tool", false, []⟩]⟩,
   .ok ⟨"control.tar.gz", true, true, [.ok ⟨"control", false, []⟩]⟩]

def c9Archive : Archive := ⟨"pkg.deb", (0, .gz), (1, .gz)⟩

/-- Witness for C9: a visitor that fails exactly on directories gives
the same iteration results as one that never fails, over a data member
containing a directory entry. -/
theorem C9_witness :
    Archive.control_entries c9Deb c9Archive okAction =
      Archive.control_entries c9Deb c9Archive dirFailAction ∧
    Archive.data_entries c9Deb c9Archive okAction =
      Archive.data_entries c9Deb c9Archive dirFailAction :=
  C9_directories_skipped.2 c9Deb c9Archive okAction dirFailAction
    (fun e he => by simp [okAction, dirFailAction, he])

def dataGzMember : ArMember := ⟨"data.tar.gz", true, true, []⟩

def controlGzMember : ArMember := ⟨"control.tar.gz", true, true, []⟩

/-- Claim C10: the ordinal is stored as an 8-bit unsigned integer: when
a recognized member is preceded by `n ≥ 256` entries, the recorded
ordinal (the very value `open_archive` later jumps to) is the true
zero-based index reduced modulo 256, which is not the true index. -/
theorem C10_ordinal_mod_256 (n : Nat) (h : 256 ≤ n) :
    Archive.new "pkg.deb"
        (List.replicate n (Except.ok junkMember) ++ [.ok dataGzMember, .ok controlGzMember]) =
      .ok ⟨"pkg.deb", (n % 256, Codec.gz), ((n + 1) % 256, Codec.gz)⟩ ∧
    n % 256 ≠ n := by
  constructor
  · have hscan : archiveScan (n % 256) none none [.ok dataGzMember, .ok controlGzMember] =
        (some (n % 256, Codec.gz), some ((n % 256 + 1) % 256, Codec.gz)) := rfl
    unfold Archive.new
    rw [archiveScan_replicate_junk n 0 (by norm_num) none none _,
      show (0 + n) % 256 = n % 256 from by omega, hscan,
      show (n % 256 + 1) % 256 = (n + 1) % 256 from by omega]
  · omega

/-- Witness for C10 at `n = 256`: the data ordinal is recorded as 0 and
the control ordinal as 1. -/
theorem C10_witness :
    Archive.new "pkg.deb"
        (List.replicate 256 (Except.ok junkMember) ++ [.ok dataGzMember, .ok controlGzMember]) =
      .ok ⟨"pkg.deb", (256 % 256, Codec.gz), ((256 + 1) % 256, Codec.gz)⟩ ∧
    256 % 256 ≠ 256 :=
  C10_ordinal_mod_256 256 (by norm_num)
